import Mathlib

/-! IBM 5.25" Diskette Adapter for PS/2 and PS/55 MCA machines.

A shallow embedding of `src/floppy/fdc_ps2ext.c` and the properties of its
POS-register state machine.

* `int` ports are `Int`; `port & 7` is `Int.land port 7` (two's complement).
* `uint8_t` values are `Nat`, reduced `% 256` where a value enters a byte.
* `uint8_t pos_regs[8]` is a function `Fin 8 → Nat`; a subscript is checked by
  `pos_index`, so that an access outside `0..7` makes the operation undefined
  (`none`).
* the callbacks take the device by pointer; here they take the device state and
  return the state they leave behind.
* `pclog` only prints and is left out.
-/

namespace PS2Ext525

/-! ## The delegated floppy controller -/

/-- One call made on the delegated controller (`fdc_remove`, `fdc_set_dma_ch`,
`fdc_set_base`, `fdc_set_irq`, `fdc_reset`), with its argument. -/
inductive fdc_call where
  | remove
  | set_dma_ch (dma_ch : Nat)
  | set_base (base : Nat)
  | set_irq (irq : Nat)
  | reset
  deriving DecidableEq, Repr

/-- Modelled from the spec: the delegated controller engine `fdc_t` of `fdc.c`,
which is not part of the adapter's source file. The spec describes it only at
the boundary: it is attached to (mapped into) or detached from the I/O address
space, has a base address used while attached, a DMA channel, an interrupt line
and an internal command/status protocol state. `calls` records, oldest first,
every call the engine has received. -/
structure fdc_t where
  mapped : Bool
  base_address : Nat
  dma_ch : Nat
  irq : Nat
  protocol : Nat
  calls : List fdc_call
  deriving DecidableEq, Repr

/-- Modelled from the spec: `fdc_remove` of `fdc.c` detaches the engine from the
address space ("Attach/Detach: mapping or unmapping the delegated controller
engine into the emulated machine's I/O address space"). -/
def fdc_remove (fdc : fdc_t) : fdc_t :=
  { fdc with mapped := false, calls := fdc.calls ++ [fdc_call.remove] }

/-- Modelled from the spec: `fdc_set_dma_ch` of `fdc.c` sets the engine's DMA
channel. -/
def fdc_set_dma_ch (fdc : fdc_t) (dma_ch : Nat) : fdc_t :=
  { fdc with dma_ch := dma_ch, calls := fdc.calls ++ [fdc_call.set_dma_ch dma_ch] }

/-- Modelled from the spec: `fdc_set_base` of `fdc.c` attaches the engine at the
given base address. -/
def fdc_set_base (fdc : fdc_t) (base : Nat) : fdc_t :=
  { fdc with mapped := true, base_address := base,
             calls := fdc.calls ++ [fdc_call.set_base base] }

/-- Modelled from the spec: `fdc_set_irq` of `fdc.c` assigns the engine's
interrupt line. -/
def fdc_set_irq (fdc : fdc_t) (irq : Nat) : fdc_t :=
  { fdc with irq := irq, calls := fdc.calls ++ [fdc_call.set_irq irq] }

/-- Modelled from the spec: `fdc_reset` of `fdc.c` re-initialises the engine's
internal command/status protocol state "without touching configuration bytes or
attachment state". -/
def fdc_reset (fdc : fdc_t) : fdc_t :=
  { fdc with protocol := 0, calls := fdc.calls ++ [fdc_call.reset] }

/-! ## The adapter -/

/-- The constant `#define FDCEXT525_IOBASE 0x280`. -/
def FDCEXT525_IOBASE : Nat := 0x280

/-- The constant `#define FDCEXT525_IRQ 0x6`. -/
def FDCEXT525_IRQ : Nat := 0x6

/-- The constant `#define FDCEXT525_DMA 0x3`. -/
def FDCEXT525_DMA : Nat := 0x3

/-- The device `struct ps2ext525_s { fdc_t *fdc; uint8_t pos_regs[8]; }`. -/
structure ps2ext525_t where
  fdc : fdc_t
  pos_regs : Fin 8 → Nat

/-- A subscript into the 8-entry array `pos_regs`: defined only inside `0..7`. -/
def pos_index (i : Int) : Option (Fin 8) :=
  if h : 0 ≤ i ∧ i < 8 then some ⟨i.toNat, by omega⟩ else none

/-- The callback `ps2ext525_mca_read`: returns `dev->pos_regs[port & 7]`. -/
def ps2ext525_mca_read (port : Int) (dev : ps2ext525_t) : Option (Nat × ps2ext525_t) :=
  match pos_index (Int.land port 7) with
  | none => none
  | some i => some (dev.pos_regs i, dev)

/-- The callback `ps2ext525_mca_write`. -/
def ps2ext525_mca_write (port : Int) (val : Nat) (dev : ps2ext525_t) : Option ps2ext525_t :=
  if port ≠ 0x102 then
    some dev
  else
    match pos_index (Int.land port 7) with
    | none => none
    | some i =>
      let dev1 : ps2ext525_t := { dev with pos_regs := Function.update dev.pos_regs i (val % 256) }
      if Int.land port 7 = 2 then
        let fdc1 := fdc_remove dev1.fdc
        let fdc2 := fdc_set_dma_ch fdc1 ((dev1.pos_regs 2 >>> 4) &&& 7)
        if dev1.pos_regs 2 &&& 0x01 ≠ 0 then
          some { dev1 with fdc := fdc_set_base fdc2 FDCEXT525_IOBASE }
        else
          some { dev1 with fdc := fdc2 }
      else
        some dev1

/-- The callback `ps2ext525_mca_feedb`: returns `dev->pos_regs[2] & 0x01` as a
`uint8_t`. -/
def ps2ext525_mca_feedb (dev : ps2ext525_t) : Nat × ps2ext525_t :=
  ((dev.pos_regs 2 &&& 0x01) % 256, dev)

/-- The callback `ps2ext525_mca_reset`: `fdc_reset(dev->fdc)`. -/
def ps2ext525_mca_reset (dev : ps2ext525_t) : ps2ext525_t :=
  { dev with fdc := fdc_reset dev.fdc }

/-- The constructor `ps2ext525_init`. `fdc0` is the engine instance that
`device_add(&fdc_ps2_ext_device)` returns; `calloc` zeroes the register array;
the registration with `mca_add` belongs to the host and is left out. -/
def ps2ext525_init (fdc0 : fdc_t) : ps2ext525_t :=
  let dev0 : ps2ext525_t := { fdc := fdc0, pos_regs := fun _ => 0 }
  let fdc1 := fdc_set_irq dev0.fdc FDCEXT525_IRQ
  let fdc2 := fdc_set_dma_ch fdc1 FDCEXT525_DMA
  let fdc3 := fdc_set_base fdc2 FDCEXT525_IOBASE
  let fdc4 := fdc_remove fdc3
  let r0 := Function.update dev0.pos_regs 0 0xFA
  let r1 := Function.update r0 1 0xDF
  let r2 := Function.update r1 2 0x3E
  let r3 := Function.update r2 3 0x04
  let r4 := Function.update r3 4 0x04
  { fdc := fdc4, pos_regs := r4 }

/-! ## Sequences of bus operations -/

/-- One call of the host's bus-configuration dispatcher on the adapter. -/
inductive mca_op where
  | read (port : Int)
  | write (port : Int) (val : Nat)
  | feedb
  | reset
  deriving DecidableEq, Repr

/-- The state the adapter is left in by one dispatcher call (`none` if the call
is undefined). -/
def mca_step (dev : ps2ext525_t) : mca_op → Option ps2ext525_t
  | mca_op.read port => (ps2ext525_mca_read port dev).map Prod.snd
  | mca_op.write port val => ps2ext525_mca_write port val dev
  | mca_op.feedb => some (ps2ext525_mca_feedb dev).2
  | mca_op.reset => some (ps2ext525_mca_reset dev)

/-- The state the adapter is left in by a sequence of dispatcher calls. -/
def mca_run : List mca_op → ps2ext525_t → Option ps2ext525_t
  | [], dev => some dev
  | op :: ops, dev => (mca_step dev op).bind (mca_run ops)

/-- A sequence of writes, each an address and a value, as dispatcher calls. -/
def write_ops (ws : List (Int × Nat)) : List mca_op :=
  ws.map (fun w => mca_op.write w.1 w.2)

/-- The value of the last write of the sequence whose full address is `0x102`,
or the default mode byte `0x3E` when there is none. -/
def last_accepted (ws : List (Int × Nat)) : Nat :=
  match (ws.filter (fun w => decide (w.1 = 0x102))).getLast? with
  | some w => w.2
  | none => 0x3E

/-- The mode byte after a sequence of writes, followed write by write from the
mode byte `m`: an accepted write stores its value as a byte, any other write
stores nothing. -/
def stored_mode (m : Nat) : List (Int × Nat) → Nat
  | [] => m
  | w :: ws => stored_mode (if w.1 = 0x102 then w.2 % 256 else m) ws

/-- The 8 bytes of `pos_regs`, in order. -/
def pos_bytes (dev : ps2ext525_t) : List Nat :=
  List.ofFn dev.pos_regs

/-- An engine instance as `device_add` may return it: not mapped, nothing
configured, no call received yet. -/
def fdc_blank : fdc_t :=
  { mapped := false, base_address := 0, dma_ch := 0, irq := 0, protocol := 0, calls := [] }

/-- An adapter state whose engine is attached at `0x280` on DMA channel 0, the
mode byte being `0x01`. -/
def dev_attached : ps2ext525_t :=
  { fdc := { mapped := true, base_address := 0x280, dma_ch := 0, irq := 6, protocol := 0,
             calls := [] },
    pos_regs := ![0xFA, 0xDF, 0x01, 0x04, 0x04, 0, 0, 0] }

/-- The effect of one recorded call on the engine. -/
def fdc_do (fdc : fdc_t) : fdc_call → fdc_t
  | fdc_call.remove => fdc_remove fdc
  | fdc_call.set_dma_ch dma_ch => fdc_set_dma_ch fdc dma_ch
  | fdc_call.set_base base => fdc_set_base fdc base
  | fdc_call.set_irq irq => fdc_set_irq fdc irq
  | fdc_call.reset => fdc_reset fdc

/-- The engine states a sequence of calls leads through: the state after the
first call, after the second, and so on. -/
def fdc_states (fdc : fdc_t) : List fdc_call → List fdc_t
  | [] => []
  | c :: cs => fdc_do fdc c :: fdc_states (fdc_do fdc c) cs

/-- The calls that the spec's write rule prescribes for a mode byte `v`: detach,
set the DMA channel to bits 4-6 of `v`, and attach at `0x280` only if bit 0 of
`v` is set. -/
def spec_write_calls (v : Nat) : List fdc_call :=
  if v &&& 1 = 1 then
    [fdc_call.remove, fdc_call.set_dma_ch ((v >>> 4) &&& 7), fdc_call.set_base 0x280]
  else
    [fdc_call.remove, fdc_call.set_dma_ch ((v >>> 4) &&& 7)]

/-- The engine agrees with the configuration bytes: it is attached exactly when
bit 0 of the mode byte is set, attached only at `0x280`, and its DMA channel is
bits 4-6 of the mode byte. -/
def consistent (dev : ps2ext525_t) : Prop :=
  (dev.fdc.mapped = true ↔ dev.pos_regs 2 &&& 1 = 1) ∧
  (dev.fdc.mapped = true → dev.fdc.base_address = 0x280) ∧
  dev.fdc.dma_ch = (dev.pos_regs 2 >>> 4) &&& 7

/-- The engine's own state, the record of calls received left out. -/
def fdc_forget (fdc : fdc_t) : fdc_t :=
  { fdc with calls := [] }

/-- The adapter states that `ps2ext525_mca_write` passes through, statement by
statement: after the store `dev->pos_regs[port & 7] = val`, after `fdc_remove`,
after `fdc_set_dma_ch`, and after `fdc_set_base` when it is called. A write that
returns at once passes through none. -/
def ps2ext525_mca_write_states (port : Int) (val : Nat) (dev : ps2ext525_t) :
    Option (List ps2ext525_t) :=
  if port ≠ 0x102 then
    some []
  else
    match pos_index (Int.land port 7) with
    | none => none
    | some i =>
      let dev1 : ps2ext525_t := { dev with pos_regs := Function.update dev.pos_regs i (val % 256) }
      if Int.land port 7 = 2 then
        let dev2 : ps2ext525_t := { dev1 with fdc := fdc_remove dev1.fdc }
        let dev3 : ps2ext525_t :=
          { dev2 with fdc := fdc_set_dma_ch dev2.fdc ((dev2.pos_regs 2 >>> 4) &&& 7) }
        if dev3.pos_regs 2 &&& 0x01 ≠ 0 then
          some [dev1, dev2, dev3, { dev3 with fdc := fdc_set_base dev3.fdc FDCEXT525_IOBASE }]
        else
          some [dev1, dev2, dev3]
      else
        some [dev1]

/-! ## Basic facts -/

/-- On a natural number, clearing from `7` the bits of `n` leaves `7 - n % 8`. -/
theorem ldiff_seven (n : Nat) : Nat.ldiff 7 n = 7 - n % 8 := by
  have hred : Nat.ldiff 7 n = Nat.ldiff 7 (n % 8) := by
    apply Nat.eq_of_testBit_eq
    intro i
    rw [Nat.testBit_ldiff, Nat.testBit_ldiff]
    have h8 : n % 8 = n % 2 ^ 3 := by norm_num
    rw [h8, Nat.testBit_mod_two_pow]
    by_cases hi : i < 3
    · simp [hi]
    · have h7 : Nat.testBit 7 i = false := by
        apply Nat.testBit_lt_two_pow
        have hpow : 2 ^ 3 ≤ 2 ^ i := Nat.pow_le_pow_right (by norm_num) (by omega)
        omega
      simp [h7]
  rw [hred]
  have hlt : n % 8 < 8 := Nat.mod_lt _ (by norm_num)
  generalize n % 8 = r at hlt
  interval_cases r <;> simp [Nat.ldiff, Nat.bitwise]

/-- In two's complement, `port & 7` is the residue of `port` modulo 8. -/
theorem land7_eq_emod (port : Int) : Int.land port 7 = port % 8 := by
  cases port with
  | ofNat n =>
    show ((n &&& 7 : Nat) : Int) = (n : Int) % 8
    have hmod := Nat.and_pow_two_sub_one_eq_mod n 3
    norm_num at hmod
    rw [hmod]
    omega
  | negSucc n =>
    show ((Nat.ldiff 7 n : Nat) : Int) = Int.negSucc n % 8
    rw [ldiff_seven, Int.negSucc_eq]
    omega

/-- The subscript `port & 7` is always defined, and is the residue modulo 8. -/
theorem pos_index_land7 (port : Int) :
    ∃ i : Fin 8, pos_index (Int.land port 7) = some i ∧ (i.val : Int) = Int.land port 7 := by
  have hm := land7_eq_emod port
  have h0 : 0 ≤ Int.land port 7 ∧ Int.land port 7 < 8 := by
    rw [hm]; omega
  refine ⟨⟨(Int.land port 7).toNat, by omega⟩, ?_, ?_⟩
  · simp [pos_index, h0]
  · simp only []
    omega

/-- The subscript computed from the accepted port `0x102` is `2`. -/
theorem pos_index_accepted : pos_index (Int.land 0x102 7) = some 2 := by
  decide

/-- What an accepted write does, as one record update. -/
theorem write_accepted (val : Nat) (dev : ps2ext525_t) :
    ps2ext525_mca_write 0x102 val dev =
      some { fdc :=
               if (val % 256) &&& 0x01 ≠ 0 then
                 fdc_set_base (fdc_set_dma_ch (fdc_remove dev.fdc) (((val % 256) >>> 4) &&& 7))
                   FDCEXT525_IOBASE
               else
                 fdc_set_dma_ch (fdc_remove dev.fdc) (((val % 256) >>> 4) &&& 7),
             pos_regs := Function.update dev.pos_regs 2 (val % 256) } := by
  have h2 : Int.land 0x102 7 = 2 := by decide
  have hp : pos_index 2 = some 2 := by decide
  unfold ps2ext525_mca_write
  simp only [ne_eq, not_true_eq_false, if_false, h2, hp, if_true, Function.update_same]
  split <;> rfl

/-- A write to any other port returns at once. -/
theorem write_ignored (port : Int) (val : Nat) (dev : ps2ext525_t) (h : port ≠ 0x102) :
    ps2ext525_mca_write port val dev = some dev := by
  unfold ps2ext525_mca_write
  simp [h]

/-- Bits 4-6 of a value do not depend on what lies above bit 7. -/
theorem dma_bits_mod (v : Nat) : ((v % 256) >>> 4) &&& 7 = (v >>> 4) &&& 7 := by
  have h1 := Nat.and_pow_two_sub_one_eq_mod ((v % 256) >>> 4) 3
  have h2 := Nat.and_pow_two_sub_one_eq_mod (v >>> 4) 3
  norm_num at h1 h2
  rw [h1, h2, Nat.shiftRight_eq_div_pow, Nat.shiftRight_eq_div_pow]
  omega

/-- Bits 4-6 of a value form a number below 8. -/
theorem dma_bits_lt (v : Nat) : (v >>> 4) &&& 7 < 8 := by
  have h2 := Nat.and_pow_two_sub_one_eq_mod (v >>> 4) 3
  norm_num at h2
  rw [h2]
  omega

/-- Bit 0 of a value does not depend on what lies above bit 7. -/
theorem bit0_mod (v : Nat) : (v % 256) &&& 1 = v &&& 1 := by
  rw [Nat.and_one_is_mod, Nat.and_one_is_mod]
  omega

/-- A read is always defined, returns the byte at the residue of the port
modulo 8 and hands the device back. -/
theorem read_defined (port : Int) (dev : ps2ext525_t) :
    ∃ i : Fin 8, (i.val : Int) = Int.land port 7 ∧
      ps2ext525_mca_read port dev = some (dev.pos_regs i, dev) := by
  obtain ⟨i, hi, hval⟩ := pos_index_land7 port
  refine ⟨i, hval, ?_⟩
  unfold ps2ext525_mca_read
  rw [hi]

/-- The feedback byte is bit 0 of the mode byte. -/
theorem feedb_val (dev : ps2ext525_t) :
    (ps2ext525_mca_feedb dev).1 = dev.pos_regs 2 % 2 := by
  unfold ps2ext525_mca_feedb
  simp only [Nat.and_one_is_mod]
  omega

/-- Every dispatcher call is defined and leaves the bytes other than index 2 as
they were. -/
theorem mca_step_frame (dev : ps2ext525_t) (op : mca_op) :
    ∃ dev1, mca_step dev op = some dev1 ∧ ∀ i : Fin 8, i ≠ 2 → dev1.pos_regs i = dev.pos_regs i := by
  cases op with
  | read port =>
    obtain ⟨i, _, hr⟩ := read_defined port dev
    exact ⟨dev, by simp [mca_step, hr], fun _ _ => rfl⟩
  | write port val =>
    by_cases hp : port = 0x102
    · subst hp
      refine ⟨_, write_accepted val dev, ?_⟩
      intro i hi
      exact Function.update_noteq hi _ _
    · exact ⟨dev, write_ignored port val dev hp, fun _ _ => rfl⟩
  | feedb => exact ⟨dev, rfl, fun _ _ => rfl⟩
  | reset => exact ⟨_, rfl, fun _ _ => rfl⟩

/-- Every sequence of dispatcher calls is defined and leaves the bytes other
than index 2 as they were. -/
theorem mca_run_frame (ops : List mca_op) (dev : ps2ext525_t) :
    ∃ dev1, mca_run ops dev = some dev1 ∧ ∀ i : Fin 8, i ≠ 2 → dev1.pos_regs i = dev.pos_regs i := by
  induction ops generalizing dev with
  | nil => exact ⟨dev, rfl, fun _ _ => rfl⟩
  | cons op ops ih =>
    obtain ⟨d1, h1, f1⟩ := mca_step_frame dev op
    obtain ⟨d2, h2, f2⟩ := ih d1
    refine ⟨d2, ?_, ?_⟩
    · simp [mca_run, h1, h2]
    · intro i hi
      rw [f2 i hi, f1 i hi]

/-- A sequence of writes is defined and leaves in index 2 the mode byte that
`stored_mode` computes. -/
theorem mca_run_writes_mode (ws : List (Int × Nat)) (dev : ps2ext525_t) :
    ∃ dev1, mca_run (write_ops ws) dev = some dev1 ∧
      dev1.pos_regs 2 = stored_mode (dev.pos_regs 2) ws := by
  induction ws generalizing dev with
  | nil => exact ⟨dev, rfl, rfl⟩
  | cons w ws ih =>
    by_cases hp : w.1 = 0x102
    · obtain ⟨d2, h2, m2⟩ := ih
        ({ fdc :=
             if (w.2 % 256) &&& 0x01 ≠ 0 then
               fdc_set_base (fdc_set_dma_ch (fdc_remove dev.fdc) (((w.2 % 256) >>> 4) &&& 7))
                 FDCEXT525_IOBASE
             else
               fdc_set_dma_ch (fdc_remove dev.fdc) (((w.2 % 256) >>> 4) &&& 7),
           pos_regs := Function.update dev.pos_regs 2 (w.2 % 256) } : ps2ext525_t)
      refine ⟨d2, ?_, ?_⟩
      · simp only [write_ops, List.map_cons, mca_run, mca_step, hp, write_accepted,
          Option.some_bind]
        exact h2
      · rw [m2]
        simp [stored_mode, hp]
    · obtain ⟨d2, h2, m2⟩ := ih dev
      refine ⟨d2, ?_, ?_⟩
      · simp only [write_ops, List.map_cons, mca_run, mca_step, write_ignored _ _ _ hp,
          Option.some_bind]
        exact h2
      · rw [m2]
        simp [stored_mode, hp]

/-- The mode byte that `stored_mode` computes is the byte of the last write whose
address is `0x102`, or the starting mode byte when there is none. -/
theorem stored_mode_eq_last (ws : List (Int × Nat)) (m : Nat) :
    stored_mode m ws =
      match (ws.filter (fun w => decide (w.1 = 0x102))).getLast? with
      | some w => w.2 % 256
      | none => m := by
  induction ws generalizing m with
  | nil => rfl
  | cons w ws ih =>
    by_cases hp : w.1 = 0x102
    · simp only [stored_mode, hp, if_true, List.filter_cons, decide_True, List.getLast?_cons]
      rw [ih]
      cases (List.filter (fun w => decide (w.1 = 0x102)) ws).getLast? <;> rfl
    · simp only [stored_mode, hp, if_false, List.filter_cons, decide_False]
      rw [ih]
      simp

/-- Writes to ports other than `0x102` can be dropped from a sequence of writes
without changing the state it leads to. -/
theorem mca_run_writes_filter (ws : List (Int × Nat)) (dev : ps2ext525_t) :
    mca_run (write_ops (ws.filter (fun w => decide (w.1 = 0x102)))) dev =
      mca_run (write_ops ws) dev := by
  induction ws generalizing dev with
  | nil => rfl
  | cons w ws ih =>
    by_cases hp : w.1 = 0x102
    · simp only [List.filter_cons, hp, decide_True, if_true, write_ops, List.map_cons, mca_run,
        mca_step, write_accepted, Option.some_bind]
      exact ih _
    · simp only [List.filter_cons, hp, decide_False, write_ops, List.map_cons, mca_run,
        mca_step, write_ignored _ _ _ hp, Option.some_bind]
      simpa [write_ops] using ih dev

/-- The register bytes after construction. -/
theorem init_pos_regs (fdc0 : fdc_t) :
    (ps2ext525_init fdc0).pos_regs = ![0xFA, 0xDF, 0x3E, 0x04, 0x04, 0, 0, 0] := by
  funext i
  fin_cases i <;> rfl

/-- Bit 0 of a value is 0 or 1. -/
theorem bit0_cases (v : Nat) : v &&& 1 = 0 ∨ v &&& 1 = 1 := by
  rw [Nat.and_one_is_mod]
  omega

/-- An accepted write of a value with bit 0 set: detach, set channel, attach. -/
theorem write_accepted_set (val : Nat) (dev : ps2ext525_t) (h : val &&& 1 = 1) :
    ps2ext525_mca_write 0x102 val dev =
      some { fdc := fdc_set_base (fdc_set_dma_ch (fdc_remove dev.fdc) ((val >>> 4) &&& 7))
                      FDCEXT525_IOBASE,
             pos_regs := Function.update dev.pos_regs 2 (val % 256) } := by
  rw [write_accepted, bit0_mod, dma_bits_mod]
  simp [h]

/-- An accepted write of a value with bit 0 clear: detach, set channel. -/
theorem write_accepted_clear (val : Nat) (dev : ps2ext525_t) (h : val &&& 1 = 0) :
    ps2ext525_mca_write 0x102 val dev =
      some { fdc := fdc_set_dma_ch (fdc_remove dev.fdc) ((val >>> 4) &&& 7),
             pos_regs := Function.update dev.pos_regs 2 (val % 256) } := by
  rw [write_accepted, bit0_mod, dma_bits_mod]
  simp [h]

/-- Bit 0 of a value is bit 0 of its part under the mask `0x71`. -/
theorem bit0_of_mask (v : Nat) : v &&& 1 = (v &&& 0x71) &&& 1 := by
  rw [Nat.and_assoc]
  rfl

/-- Bits 4-6 of a value are bits 4-6 of its part under the mask `0x71`. -/
theorem dma_bits_of_mask (v : Nat) : (v >>> 4) &&& 7 = ((v &&& 0x71) >>> 4) &&& 7 := by
  apply Nat.eq_of_testBit_eq
  intro i
  simp only [Nat.testBit_and, Nat.testBit_shiftRight]
  by_cases hi : i < 3
  · have a4 : Nat.testBit 0x71 4 = true := by decide
    have a5 : Nat.testBit 0x71 5 = true := by decide
    have a6 : Nat.testBit 0x71 6 = true := by decide
    interval_cases i <;> simp [a4, a5, a6]
  · have h7 : Nat.testBit 7 i = false := by
      apply Nat.testBit_lt_two_pow
      have hpow : 2 ^ 3 ≤ 2 ^ i := Nat.pow_le_pow_right (by norm_num) (by omega)
      omega
    simp [h7]

/-! ## Writes -/

/-- C1: for every adapter state, every write address other than `0x102` (also
one that aliases index 2, such as `0x002`, `0x10A` or `0x282`) and every value,
the write returns the adapter state it was given: all 8 configuration bytes are
the same and the record of calls received by the delegated controller is the
same, so no detach, set-DMA or attach call was issued. -/
theorem write_other_port_unchanged (dev : ps2ext525_t) (port : Int) (val : Nat)
    (h : port ≠ 0x102) :
    ps2ext525_mca_write port val dev = some dev ∧
      (∀ dev1, ps2ext525_mca_write port val dev = some dev1 →
        pos_bytes dev1 = pos_bytes dev ∧ dev1.fdc.calls = dev.fdc.calls) := by
  have hw := write_ignored port val dev h
  refine ⟨hw, ?_⟩
  intro dev1 h1
  rw [hw] at h1
  cases h1
  exact ⟨rfl, rfl⟩

/-- Port `0x10A` aliases index 2 and is not the accepted port: a write there
changes nothing. -/
theorem write_other_port_unchanged_witness :
    (0x10A : Int) ≠ 0x102 ∧ Int.land 0x10A 7 = 2 ∧
      ps2ext525_mca_write 0x10A 0x55 dev_attached = some dev_attached :=
  ⟨by decide, by decide, (write_other_port_unchanged dev_attached 0x10A 0x55 (by decide)).1⟩

/-- C2: for every adapter state and every byte `v` with bit 0 set, after the
write of `v` to `0x102` the mode byte is `v`, the delegated controller is
attached at the fixed base address `0x280` and its DMA channel is
`(v >> 4) & 7`, a value in `0..7`. -/
theorem write_enable_attaches (dev : ps2ext525_t) (v : Nat) (hv : v < 256)
    (hbit : v &&& 1 = 1) :
    ∃ dev1, ps2ext525_mca_write 0x102 v dev = some dev1 ∧
      dev1.pos_regs 2 = v ∧
      dev1.fdc.mapped = true ∧
      dev1.fdc.base_address = 0x280 ∧
      dev1.fdc.dma_ch = (v >>> 4) &&& 7 ∧
      dev1.fdc.dma_ch < 8 := by
  have hmod : v % 256 = v := Nat.mod_eq_of_lt hv
  have hne : v &&& 1 ≠ 0 := by rw [hbit]; decide
  refine ⟨_, write_accepted v dev, ?_⟩
  simp only [hmod, hne, if_true, ne_eq, not_false_eq_true, Function.update_same]
  refine ⟨trivial, rfl, rfl, rfl, ?_⟩
  exact dma_bits_lt v

/-- From the freshly constructed adapter, the write of `0x01` to `0x102` gives
mode byte `0x01` and the engine attached at `0x280` on channel 0. -/
theorem write_enable_attaches_witness :
    (0x01 : Nat) < 256 ∧ (0x01 : Nat) &&& 1 = 1 ∧
      ∃ dev1, ps2ext525_mca_write 0x102 0x01 (ps2ext525_init fdc_blank) = some dev1 ∧
        dev1.pos_regs 2 = 0x01 ∧
        dev1.fdc.mapped = true ∧
        dev1.fdc.base_address = 0x280 ∧
        dev1.fdc.dma_ch = 0 ∧
        dev1.fdc.dma_ch < 8 :=
  ⟨by decide, by decide,
    write_enable_attaches (ps2ext525_init fdc_blank) 0x01 (by decide) (by decide)⟩

/-- C3: for every adapter state and every value `v` with bit 0 clear, after the
write of `v` to `0x102` the delegated controller is detached, whatever its
attachment was before, and its DMA channel is `(v >> 4) & 7`; the same write
made a second time leaves it detached with the same channel. -/
theorem write_disable_detaches (dev : ps2ext525_t) (v : Nat) (hbit : v &&& 1 = 0) :
    ∃ dev1 dev2, ps2ext525_mca_write 0x102 v dev = some dev1 ∧
      dev1.fdc.mapped = false ∧
      dev1.fdc.dma_ch = (v >>> 4) &&& 7 ∧
      ps2ext525_mca_write 0x102 v dev1 = some dev2 ∧
      dev2.fdc.mapped = false ∧
      dev2.fdc.dma_ch = (v >>> 4) &&& 7 := by
  have hclear : ¬ ((v % 256) &&& 1 ≠ 0) := by rw [bit0_mod, hbit]; decide
  refine ⟨_, _, write_accepted v dev, ?_, ?_, write_accepted v _, ?_, ?_⟩
  · simp only [hclear, if_false]; rfl
  · simp only [hclear, if_false]; exact dma_bits_mod v
  · simp only [hclear, if_false]; rfl
  · simp only [hclear, if_false]; exact dma_bits_mod v

/-- On a state whose engine is attached, the write of `0x30` (bit 0 clear) to
`0x102` detaches it and selects channel 3, once and again. -/
theorem write_disable_detaches_witness :
    dev_attached.fdc.mapped = true ∧ (0x30 : Nat) &&& 1 = 0 ∧
      ∃ dev1 dev2, ps2ext525_mca_write 0x102 0x30 dev_attached = some dev1 ∧
        dev1.fdc.mapped = false ∧
        dev1.fdc.dma_ch = 3 ∧
        ps2ext525_mca_write 0x102 0x30 dev1 = some dev2 ∧
        dev2.fdc.mapped = false ∧
        dev2.fdc.dma_ch = 3 :=
  ⟨rfl, by decide, write_disable_detaches dev_attached 0x30 (by decide)⟩

/-! ## Reads -/

/-- C4: for every adapter state and every integer address `a`, negative or
above 7 included, the read is defined and returns the configuration byte at
index `a & 7`, an index in `0..7`, so the lookup in the 8-entry array is never
out of bounds; the state is returned as it was. -/
theorem read_masks_address (dev : ps2ext525_t) (port : Int) :
    ∃ i : Fin 8, (i.val : Int) = Int.land port 7 ∧
      0 ≤ Int.land port 7 ∧ Int.land port 7 < 8 ∧
      ps2ext525_mca_read port dev = some (dev.pos_regs i, dev) := by
  obtain ⟨i, hi, hval⟩ := pos_index_land7 port
  refine ⟨i, hval, ?_, ?_, ?_⟩
  · rw [← hval]; exact Int.ofNat_nonneg _
  · rw [← hval]; exact_mod_cast i.isLt
  · unfold ps2ext525_mca_read
    rw [hi]

/-! ## Sequences of writes from construction -/

/-- C5: for every sequence of writes (any addresses, any values) applied to a
freshly constructed adapter, the run is defined and the feedback is true (its
byte is not 0) exactly when bit 0 of the current mode byte is set, which is
exactly when bit 0 of the value of the last write addressed to `0x102` is set,
or bit 0 of the default `0x3E` when no write was addressed to `0x102`. -/
theorem feedb_after_writes (fdc0 : fdc_t) (ws : List (Int × Nat)) :
    ∃ dev, mca_run (write_ops ws) (ps2ext525_init fdc0) = some dev ∧
      ((ps2ext525_mca_feedb dev).1 ≠ 0 ↔ dev.pos_regs 2 &&& 1 = 1) ∧
      ((ps2ext525_mca_feedb dev).1 ≠ 0 ↔ last_accepted ws &&& 1 = 1) := by
  obtain ⟨dev, hrun, hmode⟩ := mca_run_writes_mode ws (ps2ext525_init fdc0)
  refine ⟨dev, hrun, ?_, ?_⟩
  · rw [feedb_val, Nat.and_one_is_mod]
    omega
  · rw [feedb_val, Nat.and_one_is_mod, hmode, stored_mode_eq_last, init_pos_regs]
    unfold last_accepted
    cases (List.filter (fun w => decide (w.1 = 0x102)) ws).getLast? with
    | none => simp
    | some w =>
      show (w.2 % 256) % 2 ≠ 0 ↔ w.2 % 2 = 1
      omega

/-- C6: for every sequence of byte-valued writes applied to a freshly
constructed adapter and every address `a` with `a & 7 = 2`, the read at `a`
returns the value of the last write of the sequence whose full address was
`0x102`, or the default `0x3E` when there is none; and the sequence leads to the
very state that its writes to `0x102` alone lead to, so that the writes to every
other address show in no read. -/
theorem read_mode_after_writes (fdc0 : fdc_t) (ws : List (Int × Nat))
    (hbytes : ∀ w ∈ ws, w.2 < 256) (port : Int) (hport : Int.land port 7 = 2) :
    ∃ dev, mca_run (write_ops ws) (ps2ext525_init fdc0) = some dev ∧
      ps2ext525_mca_read port dev = some (last_accepted ws, dev) ∧
      mca_run (write_ops (ws.filter (fun w => decide (w.1 = 0x102)))) (ps2ext525_init fdc0)
        = some dev := by
  obtain ⟨dev, hrun, hmode⟩ := mca_run_writes_mode ws (ps2ext525_init fdc0)
  refine ⟨dev, hrun, ?_, ?_⟩
  · obtain ⟨i, hi, hread⟩ := read_defined port dev
    have hi2 : i = 2 := by
      apply Fin.ext
      have h2 : (i.val : Int) = 2 := by rw [hi, hport]
      have h3 : i.val = 2 := by exact_mod_cast h2
      simpa using h3
    subst hi2
    rw [hread, hmode, stored_mode_eq_last, init_pos_regs]
    unfold last_accepted
    cases hlast : (List.filter (fun w => decide (w.1 = 0x102)) ws).getLast? with
    | none => rfl
    | some w =>
      have hmem : w ∈ ws := by
        have hw := List.mem_of_getLast?_eq_some hlast
        exact (List.mem_filter.mp hw).1
      show some (w.2 % 256, dev) = some (w.2, dev)
      rw [Nat.mod_eq_of_lt (hbytes w hmem)]
  · rw [mca_run_writes_filter]
    exact hrun

/-- After the writes `(0x102, 0x01)`, `(0x10A, 0x77)`, `(0x102, 0x91)`,
`(0x002, 0x55)` on a freshly constructed adapter, the read at `-6` (an address
with `a & 7 = 2`) returns `0x91`. -/
theorem read_mode_after_writes_witness :
    (∀ w ∈ [((0x102 : Int), (0x01 : Nat)), (0x10A, 0x77), (0x102, 0x91), (0x002, 0x55)],
        w.2 < 256) ∧
      Int.land (-6) 7 = 2 ∧
      last_accepted [(0x102, 0x01), (0x10A, 0x77), (0x102, 0x91), (0x002, 0x55)] = 0x91 ∧
      ∃ dev, mca_run (write_ops [(0x102, 0x01), (0x10A, 0x77), (0x102, 0x91), (0x002, 0x55)])
            (ps2ext525_init fdc_blank) = some dev ∧
        ps2ext525_mca_read (-6) dev =
          some (last_accepted [(0x102, 0x01), (0x10A, 0x77), (0x102, 0x91), (0x002, 0x55)],
            dev) ∧
        mca_run (write_ops
            ([((0x102 : Int), (0x01 : Nat)), (0x10A, 0x77), (0x102, 0x91), (0x002, 0x55)].filter
              (fun w => decide (w.1 = 0x102))))
            (ps2ext525_init fdc_blank) = some dev :=
  ⟨by decide, by rw [land7_eq_emod]; decide, by decide,
    read_mode_after_writes fdc_blank
      [(0x102, 0x01), (0x10A, 0x77), (0x102, 0x91), (0x002, 0x55)] (by decide) (-6)
      (by rw [land7_eq_emod]; decide)⟩

/-! ## Construction -/

/-- C7: construction yields the configuration bytes
`{0xFA, 0xDF, 0x3E, 0x04, 0x04, 0, 0, 0}` with the delegated controller
detached, its interrupt line 6 and its DMA channel 3; the calls made on the
engine are, in order, set-IRQ 6, set-DMA 3, attach at `0x280` and, last, the
detach. -/
theorem init_state (fdc0 : fdc_t) :
    pos_bytes (ps2ext525_init fdc0) = [0xFA, 0xDF, 0x3E, 0x04, 0x04, 0, 0, 0] ∧
      (ps2ext525_init fdc0).fdc.mapped = false ∧
      (ps2ext525_init fdc0).fdc.irq = 6 ∧
      (ps2ext525_init fdc0).fdc.dma_ch = 3 ∧
      (ps2ext525_init fdc0).fdc.base_address = 0x280 ∧
      (ps2ext525_init fdc0).fdc.calls =
        fdc0.calls ++ [fdc_call.set_irq 6, fdc_call.set_dma_ch 3, fdc_call.set_base 0x280,
          fdc_call.remove] := by
  refine ⟨rfl, rfl, rfl, rfl, rfl, ?_⟩
  simp [ps2ext525_init, fdc_remove, fdc_set_base, fdc_set_dma_ch, fdc_set_irq,
    FDCEXT525_IRQ, FDCEXT525_DMA, FDCEXT525_IOBASE]

/-- C8, as the code has it: the default mode byte that construction stores is
`0x3E`, whose bit 0 (the enable flag) is clear and whose bits 4-6 select the
default channel 3; the feedback taken right after construction is false (its
byte is 0), in keeping with the detached engine. -/
theorem init_mode_disabled (fdc0 : fdc_t) :
    (ps2ext525_init fdc0).pos_regs 2 = 0x3E ∧
      (ps2ext525_init fdc0).pos_regs 2 &&& 1 = 0 ∧
      ((ps2ext525_init fdc0).pos_regs 2 >>> 4) &&& 7 = FDCEXT525_DMA ∧
      (ps2ext525_mca_feedb (ps2ext525_init fdc0)).1 = 0 ∧
      (ps2ext525_init fdc0).fdc.mapped = false := by
  refine ⟨rfl, ?_, ?_, ?_, rfl⟩
  · rw [init_pos_regs]; decide
  · rw [init_pos_regs]; decide
  · rw [feedb_val, init_pos_regs]; decide

/-- C8 as stated fails: on the adapter constructed over a blank engine, bit 0 of
the mode byte is not set and the feedback is not true. -/
theorem init_mode_enabled_fails :
    ¬ ((ps2ext525_init fdc_blank).pos_regs 2 &&& 1 = 1) ∧
      ¬ ((ps2ext525_mca_feedb (ps2ext525_init fdc_blank)).1 ≠ 0) := by
  decide

/-- C9, as the code has it: from a freshly constructed adapter, after the write
of `0x01` and then of `0x10` to `0x102`, the run is defined, the mode byte is
`0x10`, and the second write has made exactly the calls detach and set-DMA 1 on
the engine: bit 0 of `0x10` is clear, so the engine ends detached, on DMA
channel 1. -/
theorem scenario_second_write (fdc0 : fdc_t) :
    ∃ dev1 dev2,
      ps2ext525_mca_write 0x102 0x01 (ps2ext525_init fdc0) = some dev1 ∧
      ps2ext525_mca_write 0x102 0x10 dev1 = some dev2 ∧
      mca_run [mca_op.write 0x102 0x01, mca_op.write 0x102 0x10] (ps2ext525_init fdc0)
        = some dev2 ∧
      dev1.fdc.mapped = true ∧
      dev2.pos_regs 2 = 0x10 ∧
      dev2.fdc.mapped = false ∧
      dev2.fdc.dma_ch = 1 ∧
      dev2.fdc.calls = dev1.fdc.calls ++ [fdc_call.remove, fdc_call.set_dma_ch 1] := by
  refine ⟨_, _, write_accepted _ _, write_accepted _ _, ?_, rfl, rfl, rfl, rfl, ?_⟩
  · simp only [mca_run, mca_step, write_accepted, Option.some_bind]
  · simp [fdc_remove, fdc_set_base, fdc_set_dma_ch]

/-- C9 as stated fails: on the adapter constructed over a blank engine, the two
writes do not end in a state with mode byte `0x10` and the engine attached at
`0x280` on channel 1. -/
theorem scenario_second_write_attached_fails :
    ¬ ∃ dev, mca_run [mca_op.write 0x102 0x01, mca_op.write 0x102 0x10]
          (ps2ext525_init fdc_blank) = some dev ∧
        dev.pos_regs 2 = 0x10 ∧
        dev.fdc.mapped = true ∧
        dev.fdc.base_address = 0x280 ∧
        dev.fdc.dma_ch = 1 := by
  rintro ⟨dev, hrun, _, hmapped, _⟩
  simp only [mca_run, mca_step, write_accepted, Option.some_bind, Option.some.injEq] at hrun
  subst hrun
  revert hmapped
  decide

/-! ## Invariants -/

/-- C10: in every state reached from construction by any sequence of read,
write (any addresses, any values), feedback and reset calls, the run is defined
and every configuration byte other than index 2 holds its construction-time
value: `0xFA`, `0xDF` at 0 and 1, `0x04` at 3 and 4, and 0 at 5, 6 and 7. -/
theorem identity_bytes_invariant (fdc0 : fdc_t) (ops : List mca_op) :
    ∃ dev, mca_run ops (ps2ext525_init fdc0) = some dev ∧
      dev.pos_regs 0 = 0xFA ∧ dev.pos_regs 1 = 0xDF ∧
      dev.pos_regs 3 = 0x04 ∧ dev.pos_regs 4 = 0x04 ∧
      dev.pos_regs 5 = 0 ∧ dev.pos_regs 6 = 0 ∧ dev.pos_regs 7 = 0 := by
  obtain ⟨dev, hrun, hframe⟩ := mca_run_frame ops (ps2ext525_init fdc0)
  refine ⟨dev, hrun, ?_, ?_, ?_, ?_, ?_, ?_, ?_⟩ <;>
    (rw [hframe _ (by decide), init_pos_regs]; rfl)

/-! ## Reset -/

/-- C11: for every adapter state, the reset leaves all 8 configuration bytes
unchanged; the read at every address is defined after it as before it and
returns the same byte, and the feedback returns the same value. -/
theorem reset_keeps_config (dev : ps2ext525_t) :
    pos_bytes (ps2ext525_mca_reset dev) = pos_bytes dev ∧
      (∀ i : Fin 8, (ps2ext525_mca_reset dev).pos_regs i = dev.pos_regs i) ∧
      (∀ port : Int, ∃ b, ps2ext525_mca_read port dev = some (b, dev) ∧
        ps2ext525_mca_read port (ps2ext525_mca_reset dev)
          = some (b, ps2ext525_mca_reset dev)) ∧
      (ps2ext525_mca_feedb (ps2ext525_mca_reset dev)).1 = (ps2ext525_mca_feedb dev).1 := by
  refine ⟨rfl, fun _ => rfl, ?_, rfl⟩
  intro port
  obtain ⟨k, hk, _⟩ := pos_index_land7 port
  refine ⟨dev.pos_regs k, ?_, ?_⟩
  · unfold ps2ext525_mca_read
    rw [hk]
  · unfold ps2ext525_mca_read
    rw [hk]
    rfl

/-! ## The order of the engine calls -/

/-- The states an accepted write of a value with bit 0 clear passes through. -/
theorem write_states_clear (val : Nat) (dev : ps2ext525_t) (h : val &&& 1 = 0) :
    ps2ext525_mca_write_states 0x102 val dev =
      some [{ fdc := dev.fdc, pos_regs := Function.update dev.pos_regs 2 (val % 256) },
            { fdc := fdc_remove dev.fdc,
              pos_regs := Function.update dev.pos_regs 2 (val % 256) },
            { fdc := fdc_set_dma_ch (fdc_remove dev.fdc) ((val >>> 4) &&& 7),
              pos_regs := Function.update dev.pos_regs 2 (val % 256) }] := by
  have h2 : Int.land 0x102 7 = 2 := by decide
  have hp : pos_index 2 = some 2 := by decide
  have hclear : (val % 256) &&& 1 = 0 := by rw [bit0_mod]; exact h
  unfold ps2ext525_mca_write_states
  simp only [ne_eq, not_true_eq_false, if_false, h2, hp, if_true, Function.update_same,
    hclear, dma_bits_mod]

/-- The states an accepted write of a value with bit 0 set passes through. -/
theorem write_states_set (val : Nat) (dev : ps2ext525_t) (h : val &&& 1 = 1) :
    ps2ext525_mca_write_states 0x102 val dev =
      some [{ fdc := dev.fdc, pos_regs := Function.update dev.pos_regs 2 (val % 256) },
            { fdc := fdc_remove dev.fdc,
              pos_regs := Function.update dev.pos_regs 2 (val % 256) },
            { fdc := fdc_set_dma_ch (fdc_remove dev.fdc) ((val >>> 4) &&& 7),
              pos_regs := Function.update dev.pos_regs 2 (val % 256) },
            { fdc := fdc_set_base (fdc_set_dma_ch (fdc_remove dev.fdc) ((val >>> 4) &&& 7))
                       FDCEXT525_IOBASE,
              pos_regs := Function.update dev.pos_regs 2 (val % 256) }] := by
  have h2 : Int.land 0x102 7 = 2 := by decide
  have hp : pos_index 2 = some 2 := by decide
  have hset : (val % 256) &&& 1 = 1 := by rw [bit0_mod]; exact h
  have hne : (1 : Nat) ≠ 0 := by decide
  unfold ps2ext525_mca_write_states
  simp only [ne_eq, not_true_eq_false, if_false, h2, hp, if_true, Function.update_same,
    hset, dma_bits_mod, hne, not_false_eq_true]

/-- C12, as the code has it: for every adapter state and every value `v`, the
write of `v` to `0x102` is defined and the calls it makes on the delegated
controller are exactly detach, set-DMA `(v >> 4) & 7`, attach at `0x280` when
bit 0 of `v` is set, and exactly detach, set-DMA `(v >> 4) & 7` when it is
clear. The write first stores the byte, the engine being as it was, and then
makes the calls, the detach first: the state in which the channel is set is a
detached one, and in every state the write passes through from the detach on
the mode byte is the one stored and the engine is either detached or holds the
channel given by bits 4-6 of that mode byte. -/
theorem write_call_order (dev : ps2ext525_t) (v : Nat) :
    ∃ dev1 stored rest, ps2ext525_mca_write 0x102 v dev = some dev1 ∧
      dev1.fdc.calls = dev.fdc.calls ++ spec_write_calls v ∧
      (fdc_states dev.fdc (spec_write_calls v)).head? = some (fdc_remove dev.fdc) ∧
      (fdc_remove dev.fdc).mapped = false ∧
      (fdc_states dev.fdc (spec_write_calls v)).getLast? = some dev1.fdc ∧
      (∀ s ∈ fdc_states dev.fdc (spec_write_calls v),
        s.mapped = false ∨ s.dma_ch = (dev1.pos_regs 2 >>> 4) &&& 7) ∧
      ps2ext525_mca_write_states 0x102 v dev = some (stored :: rest) ∧
      (stored :: rest).getLast? = some dev1 ∧
      stored.fdc = dev.fdc ∧
      stored.pos_regs = dev1.pos_regs ∧
      rest.map (fun s => s.fdc) = fdc_states dev.fdc (spec_write_calls v) ∧
      (∀ s ∈ rest, s.pos_regs = dev1.pos_regs ∧
        (s.fdc.mapped = false ∨ s.fdc.dma_ch = (s.pos_regs 2 >>> 4) &&& 7)) := by
  rcases bit0_cases v with h | h
  · have hne : ¬ (v &&& 1 = 1) := by rw [h]; decide
    have hcalls : spec_write_calls v =
        [fdc_call.remove, fdc_call.set_dma_ch ((v >>> 4) &&& 7)] := by
      unfold spec_write_calls
      rw [if_neg hne]
    rw [hcalls]
    refine ⟨_, _, _, write_accepted_clear v dev h, ?_, ?_, rfl, ?_, ?_,
      write_states_clear v dev h, rfl, rfl, rfl, ?_, ?_⟩
    · simp [fdc_remove, fdc_set_dma_ch]
    · simp [fdc_states, fdc_do]
    · simp [fdc_states, fdc_do]
    · intro s hs
      simp only [fdc_states, fdc_do, List.mem_cons, List.mem_singleton, List.not_mem_nil,
        or_false] at hs
      rcases hs with hs | hs <;> subst hs <;> exact Or.inl rfl
    · simp [fdc_states, fdc_do]
    · intro s hs
      simp only [List.mem_cons, List.mem_singleton, List.not_mem_nil, or_false] at hs
      rcases hs with hs | hs <;> subst hs <;> exact ⟨rfl, Or.inl rfl⟩
  · have hcalls : spec_write_calls v =
        [fdc_call.remove, fdc_call.set_dma_ch ((v >>> 4) &&& 7), fdc_call.set_base 0x280] := by
      unfold spec_write_calls
      rw [if_pos h]
    rw [hcalls]
    refine ⟨_, _, _, write_accepted_set v dev h, ?_, ?_, rfl, ?_, ?_,
      write_states_set v dev h, rfl, rfl, rfl, ?_, ?_⟩
    · simp [fdc_remove, fdc_set_dma_ch, fdc_set_base, FDCEXT525_IOBASE]
    · simp [fdc_states, fdc_do]
    · simp [fdc_states, fdc_do, FDCEXT525_IOBASE]
    · intro s hs
      simp only [fdc_states, fdc_do, List.mem_cons, List.mem_singleton, List.not_mem_nil,
        or_false] at hs
      rcases hs with hs | hs | hs <;> subst hs
      · exact Or.inl rfl
      · exact Or.inl rfl
      · right
        simp only [Function.update_same]
        exact (dma_bits_mod v).symm
    · simp [fdc_states, fdc_do, FDCEXT525_IOBASE]
    · intro s hs
      simp only [List.mem_cons, List.mem_singleton, List.not_mem_nil, or_false] at hs
      rcases hs with hs | hs | hs <;> subst hs
      · exact ⟨rfl, Or.inl rfl⟩
      · exact ⟨rfl, Or.inl rfl⟩
      · refine ⟨rfl, Or.inr ?_⟩
        simp only [Function.update_same]
        exact (dma_bits_mod v).symm

/-- C12 as stated fails: on the adapter reached from construction over a blank
engine by the write of `0x01` to `0x102` (engine attached on channel 0), the
write of `0x11` to `0x102` passes through a state, the one right after the
store of the byte, in which the mode byte is `0x11`, whose bits 4-6 give
channel 1, while the engine is still attached and holds channel 0. -/
theorem write_never_stale_channel_fails :
    ∃ dev0 states s,
      mca_run [mca_op.write 0x102 0x01] (ps2ext525_init fdc_blank) = some dev0 ∧
      ps2ext525_mca_write_states 0x102 0x11 dev0 = some states ∧
      s ∈ states ∧
      s.pos_regs 2 = 0x11 ∧
      (s.pos_regs 2 >>> 4) &&& 7 = 1 ∧
      s.fdc.mapped = true ∧
      s.fdc.dma_ch = 0 ∧
      s.fdc.dma_ch ≠ (s.pos_regs 2 >>> 4) &&& 7 := by
  refine ⟨{ fdc := fdc_set_base
                     (fdc_set_dma_ch (fdc_remove (ps2ext525_init fdc_blank).fdc)
                       ((0x01 >>> 4) &&& 7))
                     FDCEXT525_IOBASE,
            pos_regs := Function.update (ps2ext525_init fdc_blank).pos_regs 2 (0x01 % 256) },
    _, _, ?_, write_states_set 0x11 _ (by decide), List.mem_cons_self _ _,
    ?_, ?_, ?_, ?_, ?_⟩
  · simp only [mca_run, mca_step, write_accepted_set 0x01 _ (by decide), Option.some_bind]
  · decide
  · decide
  · rfl
  · rfl
  · decide

/-! ## Consistency of the engine with the configuration bytes -/

/-- The constructed state is consistent. -/
theorem init_consistent (fdc0 : fdc_t) : consistent (ps2ext525_init fdc0) := by
  refine ⟨?_, ?_, ?_⟩
  · rw [init_pos_regs]
    constructor
    · intro h; exact absurd h (by simp [ps2ext525_init, fdc_remove])
    · intro h; exact absurd h (by decide)
  · intro h; exact absurd h (by simp [ps2ext525_init, fdc_remove])
  · rw [init_pos_regs]
    rfl

/-- Every dispatcher call is defined and keeps the state consistent. -/
theorem mca_step_consistent (dev : ps2ext525_t) (op : mca_op) (h : consistent dev) :
    ∃ dev1, mca_step dev op = some dev1 ∧ consistent dev1 := by
  cases op with
  | read port =>
    obtain ⟨i, _, hr⟩ := read_defined port dev
    exact ⟨dev, by simp [mca_step, hr], h⟩
  | write port val =>
    by_cases hp : port = 0x102
    · subst hp
      rcases bit0_cases val with hb | hb
      · refine ⟨_, write_accepted_clear val dev hb, ?_, ?_, ?_⟩
        · simp only [Function.update_same, bit0_mod, hb]
          constructor
          · intro hm; exact absurd hm (by simp [fdc_set_dma_ch, fdc_remove])
          · intro hm; exact absurd hm (by decide)
        · intro hm; exact absurd hm (by simp [fdc_set_dma_ch, fdc_remove])
        · simp only [Function.update_same, dma_bits_mod]
          rfl
      · refine ⟨_, write_accepted_set val dev hb, ?_, ?_, ?_⟩
        · simp only [Function.update_same, bit0_mod, hb]
          constructor <;> intro _ <;> first | rfl | trivial
        · intro _; rfl
        · simp only [Function.update_same, dma_bits_mod]
          rfl
    · exact ⟨dev, write_ignored port val dev hp, h⟩
  | feedb => exact ⟨dev, rfl, h⟩
  | reset => exact ⟨_, rfl, h⟩

/-- Every sequence of dispatcher calls is defined and keeps the state
consistent. -/
theorem mca_run_consistent (ops : List mca_op) (dev : ps2ext525_t) (h : consistent dev) :
    ∃ dev1, mca_run ops dev = some dev1 ∧ consistent dev1 := by
  induction ops generalizing dev with
  | nil => exact ⟨dev, rfl, h⟩
  | cons op ops ih =>
    obtain ⟨d1, h1, c1⟩ := mca_step_consistent dev op h
    obtain ⟨d2, h2, c2⟩ := ih d1 c1
    exact ⟨d2, by simp [mca_run, h1, h2], c2⟩

/-- C13: in every state reached from construction by any sequence of read,
write (any addresses, any values) and feedback calls, and of reset calls as
well, the run is defined, the delegated controller is attached if and only if
bit 0 of the mode byte is set, when attached its base address is `0x280`, and
its DMA channel is `(configBytes[2] >> 4) & 7`. The constructed state is the
case of the empty sequence: mode byte `0x3E`, engine detached, channel 3. -/
theorem consistency_invariant (fdc0 : fdc_t) (ops : List mca_op) :
    (ps2ext525_init fdc0).pos_regs 2 = 0x3E ∧
      (ps2ext525_init fdc0).fdc.mapped = false ∧
      (ps2ext525_init fdc0).fdc.dma_ch = 3 ∧
      ∃ dev, mca_run ops (ps2ext525_init fdc0) = some dev ∧
        (dev.fdc.mapped = true ↔ dev.pos_regs 2 &&& 1 = 1) ∧
        (dev.fdc.mapped = true → dev.fdc.base_address = 0x280) ∧
        dev.fdc.dma_ch = (dev.pos_regs 2 >>> 4) &&& 7 := by
  refine ⟨rfl, rfl, rfl, ?_⟩
  obtain ⟨dev, hrun, hc⟩ := mca_run_consistent ops (ps2ext525_init fdc0) (init_consistent fdc0)
  exact ⟨dev, hrun, hc⟩

/-! ## What a write to the mode byte depends on -/

/-- C14: for any two adapter states that agree on the bytes other than index 2,
and every value `v`, the write of `v` to `0x102` is defined on both and leaves
the same configuration bytes, the same attachment (at `0x280` when attached)
and the same DMA channel; and the same write made once more leaves the
configuration bytes and the engine's state as the first one left them. -/
theorem write_history_independent (s1 s2 : ps2ext525_t) (v : Nat)
    (hagree : ∀ i : Fin 8, i ≠ 2 → s1.pos_regs i = s2.pos_regs i) :
    ∃ t1 t2 t3, ps2ext525_mca_write 0x102 v s1 = some t1 ∧
      ps2ext525_mca_write 0x102 v s2 = some t2 ∧
      t1.pos_regs = t2.pos_regs ∧
      t1.fdc.mapped = t2.fdc.mapped ∧
      (t1.fdc.mapped = true → t1.fdc.base_address = 0x280 ∧ t2.fdc.base_address = 0x280) ∧
      t1.fdc.dma_ch = t2.fdc.dma_ch ∧
      ps2ext525_mca_write 0x102 v t1 = some t3 ∧
      t3.pos_regs = t1.pos_regs ∧
      fdc_forget t3.fdc = fdc_forget t1.fdc := by
  have hregs : Function.update s1.pos_regs 2 (v % 256) =
      Function.update s2.pos_regs 2 (v % 256) := by
    funext i
    by_cases hi : i = 2
    · subst hi
      simp
    · rw [Function.update_noteq hi, Function.update_noteq hi]
      exact hagree i hi
  rcases bit0_cases v with h | h
  · refine ⟨_, _, _, write_accepted_clear v s1 h, write_accepted_clear v s2 h, hregs,
      rfl, ?_, rfl, write_accepted_clear v _ h, ?_, rfl⟩
    · intro hm
      exact absurd hm (by simp [fdc_set_dma_ch, fdc_remove])
    · simp
  · refine ⟨_, _, _, write_accepted_set v s1 h, write_accepted_set v s2 h, hregs,
      rfl, ?_, rfl, write_accepted_set v _ h, ?_, rfl⟩
    · intro _
      exact ⟨rfl, rfl⟩
    · simp

/-- The freshly constructed adapter (mode byte `0x3E`, engine detached, channel
3) and the attached one (mode byte `0x01`, channel 0) agree on the other bytes;
the write of `0x51` to `0x102` brings both to mode byte `0x51`, attached, on
channel 5. -/
theorem write_history_independent_witness :
    (∀ i : Fin 8, i ≠ 2 → (ps2ext525_init fdc_blank).pos_regs i = dev_attached.pos_regs i) ∧
      (ps2ext525_init fdc_blank).fdc.mapped ≠ dev_attached.fdc.mapped ∧
      ∃ t1 t2 t3, ps2ext525_mca_write 0x102 0x51 (ps2ext525_init fdc_blank) = some t1 ∧
        ps2ext525_mca_write 0x102 0x51 dev_attached = some t2 ∧
        t1.pos_regs = t2.pos_regs ∧
        t1.fdc.mapped = t2.fdc.mapped ∧
        (t1.fdc.mapped = true → t1.fdc.base_address = 0x280 ∧ t2.fdc.base_address = 0x280) ∧
        t1.fdc.dma_ch = t2.fdc.dma_ch ∧
        ps2ext525_mca_write 0x102 0x51 t1 = some t3 ∧
        t3.pos_regs = t1.pos_regs ∧
        fdc_forget t3.fdc = fdc_forget t1.fdc :=
  ⟨by decide, by decide,
    write_history_independent (ps2ext525_init fdc_blank) dev_attached 0x51 (by decide)⟩

/-- C15: bits 1-3 and bit 7 of the mode byte are stored but not acted on: for
every adapter state and every two bytes `v` and `w` with
`(v & 0x71) = (w & 0x71)`, the writes of `v` and of `w` to `0x102` are defined,
make the same sequence of calls on the delegated controller and leave it in the
same state, attachment and DMA channel included; the two resulting states
differ only in the stored mode byte, `v` in the one and `w` in the other. -/
theorem write_ignores_unused_bits (dev : ps2ext525_t) (v w : Nat) (hv : v < 256)
    (hw : w < 256) (hmask : v &&& 0x71 = w &&& 0x71) :
    ∃ dv dw issued, ps2ext525_mca_write 0x102 v dev = some dv ∧
      ps2ext525_mca_write 0x102 w dev = some dw ∧
      dv.fdc.calls = dev.fdc.calls ++ issued ∧
      dw.fdc.calls = dev.fdc.calls ++ issued ∧
      dv.fdc = dw.fdc ∧
      dv.fdc.mapped = dw.fdc.mapped ∧
      dv.fdc.dma_ch = dw.fdc.dma_ch ∧
      dv.pos_regs 2 = v ∧ dw.pos_regs 2 = w ∧
      (∀ i : Fin 8, i ≠ 2 → dv.pos_regs i = dw.pos_regs i) := by
  have hbit : v &&& 1 = w &&& 1 := by
    rw [bit0_of_mask v, bit0_of_mask w, hmask]
  have hdma : (v >>> 4) &&& 7 = (w >>> 4) &&& 7 := by
    rw [dma_bits_of_mask v, dma_bits_of_mask w, hmask]
  have hvm : v % 256 = v := Nat.mod_eq_of_lt hv
  have hwm : w % 256 = w := Nat.mod_eq_of_lt hw
  rcases bit0_cases v with h | h
  · have h2 : w &&& 1 = 0 := by rw [← hbit]; exact h
    refine ⟨_, _, [fdc_call.remove, fdc_call.set_dma_ch ((v >>> 4) &&& 7)],
      write_accepted_clear v dev h, write_accepted_clear w dev h2, ?_, ?_, ?_, ?_, ?_, ?_, ?_, ?_⟩
    · simp [fdc_remove, fdc_set_dma_ch]
    · simp [fdc_remove, fdc_set_dma_ch, hdma]
    · simp only [hdma]
    · rfl
    · exact hdma
    · simp only [Function.update_same, hvm]
    · simp only [Function.update_same, hwm]
    · intro i hi
      simp only [Function.update_noteq hi]
  · have h2 : w &&& 1 = 1 := by rw [← hbit]; exact h
    refine ⟨_, _,
      [fdc_call.remove, fdc_call.set_dma_ch ((v >>> 4) &&& 7), fdc_call.set_base 0x280],
      write_accepted_set v dev h, write_accepted_set w dev h2, ?_, ?_, ?_, ?_, ?_, ?_, ?_, ?_⟩
    · simp [fdc_remove, fdc_set_dma_ch, fdc_set_base, FDCEXT525_IOBASE]
    · simp [fdc_remove, fdc_set_dma_ch, fdc_set_base, FDCEXT525_IOBASE, hdma]
    · simp only [hdma]
    · rfl
    · exact hdma
    · simp only [Function.update_same, hvm]
    · simp only [Function.update_same, hwm]
    · intro i hi
      simp only [Function.update_noteq hi]

/-- The bytes `0x11` and `0x9F` differ in bits 1-3 and 7 only; written to
`0x102` of the attached adapter they make the same engine calls and leave the
same engine state, the stored mode bytes being `0x11` and `0x9F`. -/
theorem write_ignores_unused_bits_witness :
    (0x11 : Nat) < 256 ∧ (0x9F : Nat) < 256 ∧ (0x11 : Nat) &&& 0x71 = 0x9F &&& 0x71 ∧
      ∃ dv dw issued, ps2ext525_mca_write 0x102 0x11 dev_attached = some dv ∧
        ps2ext525_mca_write 0x102 0x9F dev_attached = some dw ∧
        dv.fdc.calls = dev_attached.fdc.calls ++ issued ∧
        dw.fdc.calls = dev_attached.fdc.calls ++ issued ∧
        dv.fdc = dw.fdc ∧
        dv.fdc.mapped = dw.fdc.mapped ∧
        dv.fdc.dma_ch = dw.fdc.dma_ch ∧
        dv.pos_regs 2 = 0x11 ∧ dw.pos_regs 2 = 0x9F ∧
        (∀ i : Fin 8, i ≠ 2 → dv.pos_regs i = dw.pos_regs i) :=
  ⟨by decide, by decide, by decide,
    write_ignores_unused_bits dev_attached 0x11 0x9F (by decide) (by decide) (by decide)⟩

/-! ## Frames of reset, read and feedback -/

/-- C16: for every adapter state, the only call the reset makes on the
delegated controller is one reset: no detach, no attach, no set-DMA call; the
engine's attachment, base address, DMA channel and interrupt line stay as they
were; the configuration bytes, the mode byte among them, are unchanged, and the
engine the reset leaves does not depend on the mode byte. -/
theorem reset_only_resets (dev : ps2ext525_t) :
    (ps2ext525_mca_reset dev).fdc.calls = dev.fdc.calls ++ [fdc_call.reset] ∧
      (ps2ext525_mca_reset dev).fdc = fdc_reset dev.fdc ∧
      (ps2ext525_mca_reset dev).fdc.mapped = dev.fdc.mapped ∧
      (ps2ext525_mca_reset dev).fdc.base_address = dev.fdc.base_address ∧
      (ps2ext525_mca_reset dev).fdc.dma_ch = dev.fdc.dma_ch ∧
      (ps2ext525_mca_reset dev).fdc.irq = dev.fdc.irq ∧
      (ps2ext525_mca_reset dev).pos_regs = dev.pos_regs ∧
      (∀ m : Nat,
        (ps2ext525_mca_reset { dev with pos_regs := Function.update dev.pos_regs 2 m }).fdc
          = (ps2ext525_mca_reset dev).fdc) :=
  ⟨rfl, rfl, rfl, rfl, rfl, rfl, rfl, fun _ => rfl⟩

/-- C17: for every adapter state and every address, the read and the feedback
hand back the very state they were given: all 8 configuration bytes, the
delegated controller's attachment, DMA channel and interrupt line are unchanged
and its record of calls is the same, so no call was made on it; a read repeated
on the state the first one left returns the same byte. -/
theorem read_feedb_observe_only (dev : ps2ext525_t) (port : Int) :
    ∃ b dev1, ps2ext525_mca_read port dev = some (b, dev1) ∧
      dev1 = dev ∧
      pos_bytes dev1 = pos_bytes dev ∧
      dev1.fdc.mapped = dev.fdc.mapped ∧
      dev1.fdc.dma_ch = dev.fdc.dma_ch ∧
      dev1.fdc.irq = dev.fdc.irq ∧
      dev1.fdc.calls = dev.fdc.calls ∧
      ps2ext525_mca_read port dev1 = some (b, dev1) ∧
      (ps2ext525_mca_feedb dev).2 = dev ∧
      pos_bytes (ps2ext525_mca_feedb dev).2 = pos_bytes dev ∧
      (ps2ext525_mca_feedb dev).2.fdc = dev.fdc := by
  obtain ⟨i, _, hr⟩ := read_defined port dev
  exact ⟨dev.pos_regs i, dev, hr, rfl, rfl, rfl, rfl, rfl, rfl, hr, rfl, rfl, rfl⟩

end PS2Ext525
